import Mathlib

/-!
Verification development for the pptx/pdf command-line tool (`pdf.py`).

The script's string manipulation is embedded over `List Char`:
`pySplit` models Python's `str.split(sep)` for a one-character separator,
`pyStrip` models `str.strip()`, `pyInt` models the builtin `int(...)`
applied to a string (optional sign, decimal digits, surrounding
whitespace; digit-grouping underscores are not modelled), `pyLower`
models `str.lower()` for the ASCII file names involved, and `pyRange`
models `range(a, b)`.

Filesystem access (`os.path.exists`, `glob.glob`), the external
LibreOffice process and the `PdfMerger.write` call are modelled by an
oracle structure `Env`; console printing and timing are not modelled.
-/

/-- Characters stripped by Python's `str.strip()`. -/
def pyWhitespace (c : Char) : Bool :=
  c = ' ' || c = '\t' || c = '\n' || c = '\r' || c = '\x0b' || c = '\x0c'

/-- Python `str.strip()`. -/
def pyStrip (l : List Char) : List Char :=
  ((l.dropWhile pyWhitespace).reverse.dropWhile pyWhitespace).reverse

/-- Python `c in s` membership test for a single character. -/
def pyContains (l : List Char) (c : Char) : Bool :=
  l.any (fun x => x = c)

/-- Python `str.split(sep)` for a one-character separator: keeps empty
parts, so `pySplit c []` is `[[]]` and a leading/trailing separator
produces an empty part. -/
def pySplit (c : Char) : List Char → List (List Char)
  | [] => [[]]
  | x :: xs =>
    if x = c then [] :: pySplit c xs
    else
      match pySplit c xs with
      | [] => [[x]]
      | h :: t => (x :: h) :: t

/-- Digits of a decimal numeral, most significant first. -/
def digitsToNat (l : List Char) : Nat :=
  l.foldl (fun a c => 10 * a + (c.toNat - 48)) 0

/-- A non-empty all-digit string parses to its value, otherwise `none`. -/
def parseDigits (l : List Char) : Option Nat :=
  if l.isEmpty then none
  else if l.all Char.isDigit then some (digitsToNat l)
  else none

/-- Python's builtin `int(string)`: strips whitespace, accepts an
optional `+`/`-` sign followed by decimal digits. -/
def pyInt (raw : List Char) : Option Int :=
  match pyStrip raw with
  | '-' :: rest => (parseDigits rest).map (fun n => -(n : Int))
  | '+' :: rest => (parseDigits rest).map (fun n => (n : Int))
  | t => (parseDigits t).map (fun n => (n : Int))

/-- Python `str.lower()` (ASCII, as used for file extensions). -/
def pyLower (l : List Char) : List Char :=
  l.map Char.toLower

/-- Python `range(a, b)` as a list of integers. -/
def pyRange (a b : Int) : List Int :=
  (List.range (b - a).toNat).map (fun i : Nat => a + (i : Int))

/-- The five `raise ValueError` sites of `parse_range_input`. -/
inductive ParseError where
  /-- "Invalid range token": a delimiter token that does not split into
  exactly two parts. -/
  | invalidRangeToken (token : List Char)
  /-- "Non-integer range bounds". -/
  | nonIntegerBounds (token : List Char)
  /-- "Range start must not be greater than end". -/
  | invalidRange (token : List Char)
  /-- "Invalid token, not an integer". -/
  | invalidToken (token : List Char)
  /-- "One or more indices are out of valid range." -/
  | outOfBounds
deriving DecidableEq, Repr

/-- The range branch of the token loop of `parse_range_input`: split the
token on `delim`, require exactly two integer parts `start ≤ end`, and
emit `i - 1` for every `i` in `range(start, end + 1)`. -/
def rangeParse (delim : Char) (token : List Char) : Except ParseError (List Int) :=
  match pySplit delim token with
  | [p1, p2] =>
    match pyInt p1, pyInt p2 with
    | some s, some e =>
      if s > e then .error (.invalidRange token)
      else .ok ((pyRange s (e + 1)).map (fun i => i - 1))
    | _, _ => .error (.nonIntegerBounds token)
  | _ => .error (.invalidRangeToken token)

/-- One iteration of the token loop of `parse_range_input`, after
`token.strip()`: a token containing `-` or `:` goes through the range
branch (with `-` chosen as delimiter when present), any other token is a
single integer converted to a 0-indexed position. -/
def parseTokenCore (token : List Char) : Except ParseError (List Int) :=
  if pyContains token '-' || pyContains token ':' then
    rangeParse (if pyContains token '-' then '-' else ':') token
  else
    match pyInt token with
    | some n => .ok [n - 1]
    | none => .error (.invalidToken token)

/-- One iteration of the token loop of `parse_range_input`, including
the `token.strip()` at the top of the loop body. -/
def parseToken (raw : List Char) : Except ParseError (List Int) :=
  parseTokenCore (pyStrip raw)

/-- The `(start, end)` bounds read off a token by splitting on `delim`
into exactly two integer parts; `none` when the token is not of that
shape. -/
def rangeBoundsAux (delim : Char) (token : List Char) : Option (Int × Int) :=
  match pySplit delim token with
  | [p1, p2] =>
    match pyInt p1, pyInt p2 with
    | some s, some e => some (s, e)
    | _, _ => none
  | _ => none

/-- The `(start, end)` bounds of a (stripped) token that is a well-formed
two-part range with integer bounds; `none` otherwise. -/
def rangeBounds (token : List Char) : Option (Int × Int) :=
  if pyContains token '-' || pyContains token ':' then
    rangeBoundsAux (if pyContains token '-' then '-' else ':') token
  else none

/-- A token that is neither an integer nor a two-part range with integer
bounds (the `InvalidToken` family of failures). -/
def tokenMalformed (raw : List Char) : Bool :=
  if pyContains (pyStrip raw) '-' || pyContains (pyStrip raw) ':' then
    (rangeBounds (pyStrip raw)).isNone
  else (pyInt (pyStrip raw)).isNone

/-- A well-formed range token whose start exceeds its end (the
`InvalidRange` failure). -/
def tokenBadRange (raw : List Char) : Bool :=
  match rangeBounds (pyStrip raw) with
  | some (s, e) => decide (s > e)
  | none => false

/-- The list of 0-indexed positions a token contributes when it parses
successfully (and `[]` when it does not). -/
def tokenVal (raw : List Char) : List Int :=
  match parseToken raw with
  | .ok v => v
  | .error _ => []

/-- Returns `true` on `.ok` and `false` on `.error`. -/
def exceptIsOk (x : Except ParseError (List Int)) : Bool :=
  match x with
  | .ok _ => true
  | .error _ => false

/-- The token loop of `parse_range_input`: tokens are processed left to
right, their contributions are appended to the shared `indices` list,
and the first failing token raises. -/
def collectTokens : List (List Char) → Except ParseError (List Int)
  | [] => .ok []
  | t :: ts =>
    match parseToken t with
    | .error e => .error e
    | .ok v =>
      match collectTokens ts with
      | .error e => .error e
      | .ok rest => .ok (v ++ rest)

/-- The body of `parse_range_input` on the character list of its input: split on
commas, run the token loop, then reject the whole result if any index is
negative or at least `max_len`. -/
def parse_range_core (chars : List Char) (max_len : Nat) : Except ParseError (List Int) :=
  match collectTokens (pySplit ',' chars) with
  | .error e => .error e
  | .ok indices =>
    if indices.any (fun idx => decide (idx < 0) || decide ((max_len : Int) ≤ idx)) then
      .error .outOfBounds
    else .ok indices

/-- The function `parse_range_input(input_str, max_len)` from `pdf.py`. -/
def parse_range_input (input_str : String) (max_len : Nat) : Except ParseError (List Int) :=
  parse_range_core input_str.data max_len

/-- Oracles for everything the script delegates to the system:
`fsExists` models `os.path.exists`, `runOk` models whether the
LibreOffice subprocess for a given input file and output directory
exits successfully (a `CalledProcessError` is caught by the script),
`glob` models `glob.glob`, and `writeOk` models whether
`merger.write(output_file)` succeeds. -/
structure Env where
  fsExists : String → Bool
  runOk : String → String → Bool
  glob : String → List String
  writeOk : String → Bool

/-- The function `convert_single(input_file, output_dir)` from `pdf.py`: returns
`none` (Python `None`) when the input file is missing or the external
process fails, and the input file name on success. -/
def convert_single (env : Env) (input_file : String) (output_dir : String) : Option String :=
  if env.fsExists input_file then
    if env.runOk input_file output_dir then some input_file else none
  else none

/-- The `"*" in item or "?" in item` wildcard test. -/
def hasWildcard (item : String) : Bool :=
  pyContains item.data '*' || pyContains item.data '?'

/-- The glob-expansion loop shared by `convert_pptx_to_pdf` (list case)
and `merge_pdfs`: wildcard entries are expanded with `glob.glob`
(`extend`), other entries are appended unchanged. -/
def expandPatterns (globfn : String → List String) (items : List String) : List String :=
  items.foldl (fun acc item => if hasWildcard item then acc ++ globfn item else acc ++ [item]) []

/-- The `file.lower().endswith(ext)` extension test. -/
def validByExt (ext : List Char) (file : String) : Bool :=
  List.isSuffixOf ext (pyLower file.data)

/-- The extension-filter loop: files passing the extension test are
appended to `valid_files`, the rest are reported and dropped. -/
def filter_valid (ext : List Char) (files : List String) : List String :=
  files.foldl (fun acc file => if validByExt ext file then acc ++ [file] else acc) []

/-- The `input_files` argument of `convert_pptx_to_pdf`: either a single
pattern string or an explicit list of paths. -/
inductive InputSpec where
  | pattern (s : String)
  | paths (items : List String)

/-- The `isinstance` dispatch at the top of `convert_pptx_to_pdf`: a
string is globbed directly, a list goes through the expansion loop. -/
def resolveInput (globfn : String → List String) : InputSpec → List String
  | .pattern s => globfn s
  | .paths items => expandPatterns globfn items

/-- Outcome of a `convert_pptx_to_pdf` invocation: `sys.exit(1)` when no
valid file remains, otherwise the per-file results of `convert_single`. -/
inductive ConvertResult where
  | exitNoValidFiles
  | converted (results : List (Option String))
deriving DecidableEq, Repr

/-- The function `convert_pptx_to_pdf(input_files, output_dir, parallel)` from
`pdf.py`. Each job is a function of its own input file and the output
directory only, so both execution modes yield the per-file outcomes
listed here; `runJobs` below pairs them with a completion order. -/
def convert_pptx_to_pdf (env : Env) (input_files : InputSpec) (output_dir : String)
    (parallel : Bool) : ConvertResult :=
  let pptx_files := resolveInput env.glob input_files
  let valid_files := filter_valid ".pptx".data pptx_files
  if valid_files = [] then .exitNoValidFiles
  else .converted (valid_files.map (fun file => convert_single env file output_dir))

/-- The conversion jobs executed in the order given by `files`: in
sequential mode `files` is the resolved order, in parallel mode it is
whatever completion order the 4-worker pool produces. Each entry pairs
the input file with its `convert_single` outcome. -/
def runJobs (env : Env) (files : List String) (output_dir : String) :
    List (String × Option String) :=
  files.map (fun file => (file, convert_single env file output_dir))

/-- The function `interactive_merge_order(valid_files)` from `pdf.py`, with the
user's response to `input(...)` passed explicitly as `order_input`:
an empty (stripped) response keeps the default order, a response that
`parse_range_input` rejects falls back to the default order, and a
valid response selects `valid_files[idx]` for each parsed index. -/
def interactive_merge_order (order_input : String) (valid_files : List String) : List String :=
  let stripped := pyStrip order_input.data
  if stripped = [] then valid_files
  else
    match parse_range_core stripped valid_files.length with
    | .ok indices => indices.map (fun idx => valid_files.getD idx.toNat "")
    | .error _ => valid_files

/-- Outcome of a `merge_pdfs` invocation: `sys.exit(1)` when fewer than
two valid files resolve, `sys.exit(1)` when the final write fails, and
otherwise the list of files actually appended to the merger. -/
inductive MergeResult where
  | exitInsufficientFiles
  | merged (appended : List String)
  | exitWriteError
deriving DecidableEq, Repr

/-- The append loop of `merge_pdfs`: each file of the final order is
checked with `os.path.exists` immediately before `merger.append`;
missing files are reported and skipped. -/
def appendExisting (fsExists : String → Bool) (ordered : List String) : List String :=
  ordered.foldl (fun acc pdf => if fsExists pdf then acc ++ [pdf] else acc) []

/-- The function `merge_pdfs(pdf_patterns, output_file)` from `pdf.py`, with the
user's order-selection response passed explicitly as `order_input`. -/
def merge_pdfs (env : Env) (order_input : String) (pdf_patterns : List String)
    (output_file : String) : MergeResult :=
  let pdf_files := expandPatterns env.glob pdf_patterns
  let valid_files := filter_valid ".pdf".data pdf_files
  if valid_files.length < 2 then .exitInsufficientFiles
  else
    let ordered_files := interactive_merge_order order_input valid_files
    let appended := appendExisting env.fsExists ordered_files
    if env.writeOk output_file then .merged appended else .exitWriteError

/-- A concrete environment used to exercise the definitions: two pptx
files and two pdf files exist, the `missing.*` files do not, the
external converter and the final write always succeed. -/
def testEnv : Env where
  fsExists := fun file => !(file == "missing.pptx" || file == "missing.pdf")
  runOk := fun _ _ => true
  glob := fun p => if p == "*.pptx" then ["a.pptx", "b.pptx"] else []
  writeOk := fun _ => true

/-! ### Basic lemmas about the string utilities -/

theorem exceptIsOk_true_iff (x : Except ParseError (List Int)) :
    exceptIsOk x = true ↔ ∃ v, x = .ok v := by
  cases x <;> simp [exceptIsOk]

theorem exceptIsOk_false_iff (x : Except ParseError (List Int)) :
    exceptIsOk x = false ↔ ∃ e, x = .error e := by
  cases x <;> simp [exceptIsOk]

theorem pyContains_iff (l : List Char) (c : Char) : pyContains l c = true ↔ c ∈ l := by
  simp only [pyContains, List.any_eq_true, decide_eq_true_eq]
  constructor
  · rintro ⟨x, hx, rfl⟩
    exact hx
  · intro h
    exact ⟨c, h, rfl⟩

theorem mem_pyRange (a b j : Int) : j ∈ pyRange a b ↔ a ≤ j ∧ j < b := by
  simp only [pyRange, List.mem_map, List.mem_range]
  constructor
  · rintro ⟨i, hi, rfl⟩
    constructor <;> omega
  · intro h
    exact ⟨(j - a).toNat, by omega, by omega⟩

theorem pySplit_ne_nil (c : Char) (l : List Char) : pySplit c l ≠ [] := by
  induction l with
  | nil => simp [pySplit]
  | cons x xs ih =>
    by_cases h : x = c
    · simp [pySplit, h]
    · simp only [pySplit, if_neg h]
      rcases hs : pySplit c xs with _ | ⟨hd, tl⟩
      · exact absurd hs ih
      · simp

theorem pySplit_append_sep (c : Char) (xs : List Char) :
    pySplit c (xs ++ [c]) = pySplit c xs ++ [[]] := by
  induction xs with
  | nil => simp [pySplit]
  | cons x xs ih =>
    by_cases h : x = c
    · subst h
      simp [pySplit, ih]
    · simp only [List.cons_append, pySplit, if_neg h, List.append_eq]
      rw [ih]
      rcases hs : pySplit c xs with _ | ⟨hd, tl⟩
      · exact absurd hs (pySplit_ne_nil c xs)
      · simp

/-! ### Characterization of the token parser -/

theorem rangeParse_of_bounds (delim : Char) (token : List Char) (s e : Int)
    (h : rangeBoundsAux delim token = some (s, e)) :
    rangeParse delim token =
      if s > e then .error (.invalidRange token)
      else .ok ((pyRange s (e + 1)).map (fun i => i - 1)) := by
  unfold rangeBoundsAux at h
  unfold rangeParse
  rcases hs : pySplit delim token with _ | ⟨p1, _ | ⟨p2, _ | ⟨p3, rest⟩⟩⟩ <;> rw [hs] at h
  · simp at h
  · simp at h
  · cases hi1 : pyInt p1 <;> cases hi2 : pyInt p2 <;> simp [hi1, hi2] at h ⊢
    obtain ⟨rfl, rfl⟩ := h
    rfl
  · simp at h

theorem rangeParse_not_ok_of_none (delim : Char) (token : List Char)
    (h : rangeBoundsAux delim token = none) :
    exceptIsOk (rangeParse delim token) = false := by
  unfold rangeBoundsAux at h
  unfold rangeParse
  rcases hs : pySplit delim token with _ | ⟨p1, _ | ⟨p2, _ | ⟨p3, rest⟩⟩⟩ <;> rw [hs] at h
  · simp [exceptIsOk]
  · simp [exceptIsOk]
  · cases hi1 : pyInt p1 <;> cases hi2 : pyInt p2 <;> simp [hi1, hi2, exceptIsOk] at h ⊢
  · simp [exceptIsOk]

theorem parseTokenCore_range (token : List Char)
    (hc : (pyContains token '-' || pyContains token ':') = true) :
    parseTokenCore token = rangeParse (if pyContains token '-' then '-' else ':') token := by
  unfold parseTokenCore
  rw [if_pos hc]

theorem tokenVal_of_ok (raw : List Char) (v : List Int) (h : parseToken raw = .ok v) :
    tokenVal raw = v := by
  unfold tokenVal
  rw [h]

theorem parseToken_not_ok_iff (raw : List Char) :
    exceptIsOk (parseToken raw) = false ↔
      (tokenMalformed raw = true ∨ tokenBadRange raw = true) := by
  unfold parseToken tokenMalformed tokenBadRange rangeBounds
  cases hc : (pyContains (pyStrip raw) '-' || pyContains (pyStrip raw) ':')
  · unfold parseTokenCore
    rw [hc]
    simp only [Bool.false_eq_true, if_false]
    cases hi : pyInt (pyStrip raw) <;> simp [hi, exceptIsOk]
  · rw [parseTokenCore_range _ hc]
    rcases hb : rangeBoundsAux (if pyContains (pyStrip raw) '-' then '-' else ':') (pyStrip raw)
      with _ | ⟨s, e⟩
    · simp [rangeParse_not_ok_of_none _ _ hb, hb]
    · rw [rangeParse_of_bounds _ _ _ _ hb]
      by_cases hse : s > e
      · simp [if_pos hse, exceptIsOk, hse, hb]
      · simp [if_neg hse, exceptIsOk, hse, hb]

theorem parseToken_ok_elim (raw : List Char) (v : List Int) (h : parseToken raw = .ok v) :
    (∃ s e, rangeBounds (pyStrip raw) = some (s, e) ∧ s ≤ e ∧
      v = (pyRange s (e + 1)).map (fun i => i - 1)) ∨
    (rangeBounds (pyStrip raw) = none ∧
      pyContains (pyStrip raw) '-' = false ∧ pyContains (pyStrip raw) ':' = false ∧
      ∃ n, pyInt (pyStrip raw) = some n ∧ v = [n - 1]) := by
  unfold parseToken at h
  cases hc : (pyContains (pyStrip raw) '-' || pyContains (pyStrip raw) ':')
  · right
    obtain ⟨h1, h2⟩ : pyContains (pyStrip raw) '-' = false ∧
        pyContains (pyStrip raw) ':' = false := by
      constructor <;> cases hch1 : pyContains (pyStrip raw) '-' <;>
        cases hch2 : pyContains (pyStrip raw) ':' <;> rw [hch1, hch2] at hc <;>
        simp_all
    unfold parseTokenCore at h
    rw [hc] at h
    simp only [Bool.false_eq_true, if_false] at h
    rcases hi : pyInt (pyStrip raw) with _ | n <;> rw [hi] at h
    · simp at h
    · simp only [Except.ok.injEq] at h
      exact ⟨by unfold rangeBounds; rw [hc]; simp, h1, h2, n, rfl, h.symm⟩
  · rw [parseTokenCore_range _ hc] at h
    rcases hb : rangeBoundsAux (if pyContains (pyStrip raw) '-' then '-' else ':') (pyStrip raw)
      with _ | ⟨s, e⟩
    · have hno := rangeParse_not_ok_of_none _ _ hb
      rw [h] at hno
      simp [exceptIsOk] at hno
    · rw [rangeParse_of_bounds _ _ _ _ hb] at h
      by_cases hse : s > e
      · rw [if_pos hse] at h
        simp at h
      · rw [if_neg hse] at h
        simp only [Except.ok.injEq] at h
        left
        exact ⟨s, e, by unfold rangeBounds; rw [hc]; simpa using hb, by omega, h.symm⟩

/-! ### The token loop and the bounds check -/

theorem collectTokens_ok_val (ts : List (List Char)) (l : List Int)
    (h : collectTokens ts = .ok l) : l = ts.flatMap tokenVal := by
  induction ts generalizing l with
  | nil =>
    simp only [collectTokens, Except.ok.injEq] at h
    simp [h.symm]
  | cons t ts ih =>
    unfold collectTokens at h
    rcases hp : parseToken t with e | v <;> rw [hp] at h
    · simp at h
    · rcases hc : collectTokens ts with e' | rest <;> rw [hc] at h
      · simp at h
      · simp only [Except.ok.injEq] at h
        rw [← h, List.flatMap_cons, tokenVal_of_ok t v hp, ih rest hc]

theorem collectTokens_ok_forall (ts : List (List Char)) :
    (∃ l, collectTokens ts = .ok l) ↔ ∀ t ∈ ts, exceptIsOk (parseToken t) = true := by
  induction ts with
  | nil => simp [collectTokens]
  | cons t ts ih =>
    constructor
    · rintro ⟨l, h⟩
      unfold collectTokens at h
      rcases hp : parseToken t with e | v <;> rw [hp] at h
      · simp at h
      · rcases hc : collectTokens ts with e' | rest <;> rw [hc] at h
        · simp at h
        · intro u hu
          rcases List.mem_cons.mp hu with rfl | hu
          · rw [hp]; rfl
          · exact (ih.mp ⟨rest, hc⟩) u hu
    · intro hall
      have ht := hall t (List.mem_cons_self t ts)
      obtain ⟨v, hv⟩ := (exceptIsOk_true_iff _).mp ht
      obtain ⟨rest, hrest⟩ := ih.mpr (fun u hu => hall u (List.mem_cons_of_mem t hu))
      exact ⟨v ++ rest, by unfold collectTokens; rw [hv, hrest]⟩

theorem collectTokens_error_iff (ts : List (List Char)) :
    (∃ e, collectTokens ts = .error e) ↔ ∃ t ∈ ts, exceptIsOk (parseToken t) = false := by
  constructor
  · rintro ⟨e, he⟩
    by_contra hno
    push_neg at hno
    have hall : ∀ t ∈ ts, exceptIsOk (parseToken t) = true := by
      intro t ht
      cases hx : exceptIsOk (parseToken t)
      · exact absurd hx (hno t ht)
      · rfl
    obtain ⟨l, hl⟩ := (collectTokens_ok_forall ts).mpr hall
    rw [hl] at he
    simp at he
  · rintro ⟨t, ht, hbad⟩
    rcases hc : collectTokens ts with e | l
    · exact ⟨e, rfl⟩
    · have := (collectTokens_ok_forall ts).mp ⟨l, hc⟩ t ht
      rw [hbad] at this
      simp at this

theorem parse_range_core_ok_iff (chars : List Char) (m : Nat) (l : List Int) :
    parse_range_core chars m = .ok l ↔
      collectTokens (pySplit ',' chars) = .ok l ∧ ∀ i ∈ l, 0 ≤ i ∧ i < (m : Int) := by
  unfold parse_range_core
  rcases hc : collectTokens (pySplit ',' chars) with e | idxs
  · simp
  · simp only [Except.ok.injEq]
    by_cases hany : (idxs.any fun idx => decide (idx < 0) || decide ((m : Int) ≤ idx)) = true
    · rw [if_pos hany]
      simp only [List.any_eq_true, Bool.or_eq_true, decide_eq_true_eq] at hany
      obtain ⟨i, hi, hviol⟩ := hany
      constructor
      · intro h
        simp at h
      · rintro ⟨rfl, hb⟩
        have := hb i hi
        omega
    · rw [if_neg hany]
      simp only [List.any_eq_true, Bool.or_eq_true, decide_eq_true_eq] at hany
      push_neg at hany
      constructor
      · rintro h
        injection h with h
        subst h
        exact ⟨rfl, fun i hi => by have := hany i hi; omega⟩
      · rintro ⟨rfl, _⟩
        rfl

theorem parse_range_core_error_iff (chars : List Char) (m : Nat) :
    (∃ e, parse_range_core chars m = .error e) ↔
      (∃ t ∈ pySplit ',' chars, exceptIsOk (parseToken t) = false) ∨
      (∃ i ∈ (pySplit ',' chars).flatMap tokenVal, i < 0 ∨ (m : Int) ≤ i) := by
  have htot : (∃ e, parse_range_core chars m = .error e) ↔
      ¬(∃ l, parse_range_core chars m = .ok l) := by
    rcases parse_range_core chars m with e | l <;> simp
  rw [htot]
  constructor
  · intro hno
    rcases hc : collectTokens (pySplit ',' chars) with e | idxs
    · exact Or.inl ((collectTokens_error_iff _).mp ⟨e, hc⟩)
    · have hval := collectTokens_ok_val _ _ hc
      by_cases hb : ∀ i ∈ idxs, 0 ≤ i ∧ i < (m : Int)
      · exact absurd ⟨idxs, (parse_range_core_ok_iff chars m idxs).mpr ⟨hc, hb⟩⟩ hno
      · push_neg at hb
        obtain ⟨i, hi, hviol⟩ := hb
        rcases lt_or_ge i 0 with h0 | h0
        · exact Or.inr ⟨i, by rw [← hval]; exact hi, Or.inl h0⟩
        · exact Or.inr ⟨i, by rw [← hval]; exact hi, Or.inr (by have := hviol h0; omega)⟩
  · intro hrhs
    rintro ⟨l, hl⟩
    rw [parse_range_core_ok_iff] at hl
    obtain ⟨hcoll, hbounds⟩ := hl
    rcases hrhs with ⟨t, ht, hbad⟩ | ⟨i, hi, hviol⟩
    · have hgood := (collectTokens_ok_forall _).mp ⟨l, hcoll⟩ t ht
      rw [hbad] at hgood
      simp at hgood
    · have hval := collectTokens_ok_val _ _ hcoll
      rw [← hval] at hi
      have := hbounds i hi
      omega

/-! ### Claim theorems -/

/-- C1: for every valid range string and maximum length `m`,
`parse_range_input` splits the input on commas; a token containing a
range delimiter yields all integers in `[start, end]` inclusive
converted from 1-indexed to 0-indexed; a token without a delimiter
yields a single 0-indexed integer; the returned list contains only
indices in `[0, m)`, preserves the input token order (it is the
concatenation, token by token, of each token's contribution), and
preserves duplicates. -/
theorem parse_range_input_ok_correct (s : String) (m : Nat) (l : List Int)
    (h : parse_range_input s m = .ok l) :
    l = (pySplit ',' s.data).flatMap tokenVal
    ∧ (∀ i ∈ l, 0 ≤ i ∧ i < (m : Int))
    ∧ (∀ t ∈ pySplit ',' s.data, ∀ a b : Int, rangeBounds (pyStrip t) = some (a, b) →
        ∀ j : Int, j ∈ tokenVal t ↔ a - 1 ≤ j ∧ j ≤ b - 1)
    ∧ (∀ t ∈ pySplit ',' s.data, pyContains (pyStrip t) '-' = false →
        pyContains (pyStrip t) ':' = false →
        ∀ n : Int, pyInt (pyStrip t) = some n → tokenVal t = [n - 1]) := by
  unfold parse_range_input at h
  rw [parse_range_core_ok_iff] at h
  obtain ⟨hcoll, hbounds⟩ := h
  have hval := collectTokens_ok_val _ _ hcoll
  have hok := (collectTokens_ok_forall _).mp ⟨l, hcoll⟩
  refine ⟨hval, hbounds, ?_, ?_⟩
  · intro t ht a b hrb j
    obtain ⟨v, hv⟩ := (exceptIsOk_true_iff _).mp (hok t ht)
    rcases parseToken_ok_elim t v hv with ⟨a', b', hb', hab', hveq⟩ | ⟨hnone, _⟩
    · rw [hrb] at hb'
      rw [Option.some.injEq, Prod.mk.injEq] at hb'
      obtain ⟨rfl, rfl⟩ := hb'
      rw [tokenVal_of_ok t v hv, hveq]
      simp only [List.mem_map, mem_pyRange]
      constructor
      · rintro ⟨x, ⟨hx1, hx2⟩, rfl⟩
        constructor <;> omega
      · rintro ⟨hj1, hj2⟩
        exact ⟨j + 1, ⟨by omega, by omega⟩, by omega⟩
    · rw [hnone] at hrb
      simp at hrb
  · intro t ht h1 h2 n hn
    obtain ⟨v, hv⟩ := (exceptIsOk_true_iff _).mp (hok t ht)
    rcases parseToken_ok_elim t v hv with ⟨a', b', hb', _⟩ | ⟨_, _, _, n', hn', hveq⟩
    · rw [show rangeBounds (pyStrip t) = none by
        unfold rangeBounds; rw [h1, h2]; simp] at hb'
      simp at hb'
    · rw [tokenVal_of_ok t v hv, hveq]
      rw [hn] at hn'
      rw [Option.some.injEq] at hn'
      rw [hn']

/-- Witness for C1 at the concrete input `"1,3,5-7"` with `m = 7`. -/
theorem parse_range_input_ok_correct_witness :
    parse_range_input "1,3,5-7" 7 = .ok [0, 2, 4, 5, 6] ∧
    (([0, 2, 4, 5, 6] : List Int) = (pySplit ',' "1,3,5-7".data).flatMap tokenVal ∧
      ∀ i ∈ ([0, 2, 4, 5, 6] : List Int), 0 ≤ i ∧ i < ((7 : Nat) : Int)) :=
  ⟨by rfl,
    (parse_range_input_ok_correct "1,3,5-7" 7 [0, 2, 4, 5, 6] (by rfl)).1,
    (parse_range_input_ok_correct "1,3,5-7" 7 [0, 2, 4, 5, 6] (by rfl)).2.1⟩

/-- C2: `parse_range_input` raises exactly when some token is neither an
integer nor a two-part range with integer bounds, or some range token
has start > end, or some resulting 0-indexed position falls outside
`[0, max_len)` — including the negative position produced by the token
`"0"`; on every other input it returns normally. -/
theorem parse_range_input_error_characterization (s : String) (m : Nat) :
    ((∃ e, parse_range_input s m = .error e) ↔
      (∃ t ∈ pySplit ',' s.data, tokenMalformed t = true ∨ tokenBadRange t = true) ∨
      (∃ i ∈ (pySplit ',' s.data).flatMap tokenVal, i < 0 ∨ (m : Int) ≤ i)) ∧
    parse_range_input "0" m = .error .outOfBounds := by
  constructor
  · unfold parse_range_input
    rw [parse_range_core_error_iff]
    simp only [parseToken_not_ok_iff]
  · rfl

theorem pyInt_nil : pyInt [] = none := rfl

theorem rangeParse_head_hyphen (rest : List Char) :
    exceptIsOk (rangeParse '-' ('-' :: rest)) = false := by
  unfold rangeParse
  rw [show pySplit '-' ('-' :: rest) = [] :: pySplit '-' rest by simp [pySplit]]
  rcases hs : pySplit '-' rest with _ | ⟨p2, t2⟩
  · exact absurd hs (pySplit_ne_nil _ _)
  · rcases t2 with _ | ⟨p3, t3⟩
    · simp [pyInt_nil, exceptIsOk]
    · simp [exceptIsOk]

theorem rangeParse_last_hyphen (xs : List Char) :
    exceptIsOk (rangeParse '-' (xs ++ ['-'])) = false := by
  unfold rangeParse
  rw [pySplit_append_sep]
  rcases hs : pySplit '-' xs with _ | ⟨p1, t1⟩
  · exact absurd hs (pySplit_ne_nil _ _)
  · rcases t1 with _ | ⟨p2, t2⟩
    · cases hp1 : pyInt p1 <;> simp [hp1, pyInt_nil, exceptIsOk]
    · simp [exceptIsOk]

theorem exists_append_of_getLast? (l : List Char) (a : Char) (h : l.getLast? = some a) :
    ∃ xs, l = xs ++ [a] := by
  induction l with
  | nil => simp at h
  | cons x xs ih =>
    rcases xs with _ | ⟨y, ys⟩
    · simp only [List.getLast?_singleton, Option.some.injEq] at h
      exact ⟨[], by simp [h]⟩
    · rw [List.getLast?_cons_cons] at h
      obtain ⟨zs, hzs⟩ := ih h
      exact ⟨x :: zs, by rw [List.cons_append, ← hzs]⟩

/-- C10: a token containing `-` is parsed through the range branch with
`-` as the delimiter (taking precedence over `:`); consequently a token
whose stripped form starts or ends with `-` — such as a negative single
integer `"-3"` or a trailing-delimiter token `"2-"` — always raises a
`ValueError` from range parsing and is never accepted as a single
signed index. -/
theorem parseToken_hyphen_precedence (raw : List Char) :
    ((pyContains (pyStrip raw) '-' = true → parseToken raw = rangeParse '-' (pyStrip raw))
    ∧ (((pyStrip raw).head? = some '-' ∨ (pyStrip raw).getLast? = some '-') →
        exceptIsOk (parseToken raw) = false))
    ∧ parse_range_input "-3" 10 = .error (.nonIntegerBounds "-3".data)
    ∧ parse_range_input "2-" 10 = .error (.nonIntegerBounds "2-".data) := by
  have hrange : pyContains (pyStrip raw) '-' = true →
      parseToken raw = rangeParse '-' (pyStrip raw) := by
    intro h
    unfold parseToken parseTokenCore
    rw [h]
    simp
  refine ⟨⟨hrange, ?_⟩, ?_, ?_⟩
  · rintro (hh | hl)
    · rcases hstrip : pyStrip raw with _ | ⟨c0, rest⟩ <;> rw [hstrip] at hh
      · simp at hh
      · simp only [List.head?_cons, Option.some.injEq] at hh
        subst hh
        have hcont : pyContains (pyStrip raw) '-' = true := by
          rw [hstrip]
          exact (pyContains_iff _ _).mpr (List.mem_cons_self _ _)
        rw [hrange hcont, hstrip]
        exact rangeParse_head_hyphen rest
    · obtain ⟨xs, hxs⟩ := exists_append_of_getLast? _ _ hl
      have hcont : pyContains (pyStrip raw) '-' = true := by
        rw [hxs]
        exact (pyContains_iff _ _).mpr (by simp)
      rw [hrange hcont, hxs]
      exact rangeParse_last_hyphen xs
  · rfl
  · rfl

/-- Witness for C10: the precedence branch at `"1-2:3"` (which contains
both delimiters) and the error branch at the stripped tokens of `"-3"`
and `"2-"`. -/
theorem parseToken_hyphen_precedence_witness :
    parseToken "1-2:3".data = rangeParse '-' (pyStrip "1-2:3".data) ∧
    exceptIsOk (parseToken "-3".data) = false ∧
    exceptIsOk (parseToken "2-".data) = false :=
  ⟨(parseToken_hyphen_precedence "1-2:3".data).1.1 (by rfl),
   (parseToken_hyphen_precedence "-3".data).1.2 (Or.inl (by rfl)),
   (parseToken_hyphen_precedence "2-".data).1.2 (Or.inr (by rfl))⟩

/-! ### The file resolver, converter and merger -/

theorem filter_valid_eq (ext : List Char) (files : List String) :
    filter_valid ext files = files.filter (validByExt ext) := by
  suffices h : ∀ acc, files.foldl
      (fun acc file => if validByExt ext file then acc ++ [file] else acc) acc =
      acc ++ files.filter (validByExt ext) by
    simpa using h []
  induction files with
  | nil => intro acc; simp
  | cons f fs ih =>
    intro acc
    by_cases hf : validByExt ext f <;>
      simp [List.foldl_cons, hf, ih, List.filter_cons]

theorem appendExisting_eq (fs : String → Bool) (ordered : List String) :
    appendExisting fs ordered = ordered.filter fs := by
  suffices h : ∀ acc, ordered.foldl
      (fun acc pdf => if fs pdf then acc ++ [pdf] else acc) acc =
      acc ++ ordered.filter fs by
    simpa using h []
  induction ordered with
  | nil => intro acc; simp
  | cons f l ih =>
    intro acc
    by_cases hf : fs f <;>
      simp [List.foldl_cons, hf, ih, List.filter_cons]

theorem expandPatterns_eq (globfn : String → List String) (items : List String) :
    expandPatterns globfn items =
      items.flatMap (fun item => if hasWildcard item then globfn item else [item]) := by
  suffices h : ∀ acc, items.foldl
      (fun acc item => if hasWildcard item then acc ++ globfn item else acc ++ [item]) acc =
      acc ++ items.flatMap (fun item => if hasWildcard item then globfn item else [item]) by
    simpa using h []
  induction items with
  | nil => intro acc; simp [expandPatterns]
  | cons it items ih =>
    intro acc
    by_cases hw : hasWildcard it <;>
      simp [List.foldl_cons, hw, ih, List.flatMap_cons]

/-- C5: for every input list mixing literal paths and patterns, the
resolved file set equals the concatenation, in input-argument order, of
the glob expansion of each wildcard entry and each other entry
unchanged, restricted to entries whose name ends case-insensitively
with the required extension; entries failing the filter are dropped
without aborting (the function is total and simply omits them). -/
theorem resolver_correct (globfn : String → List String) (ext : List Char)
    (items : List String) :
    filter_valid ext (expandPatterns globfn items) =
      (items.flatMap (fun item => if hasWildcard item then globfn item else [item])).filter
        (validByExt ext) := by
  rw [expandPatterns_eq, filter_valid_eq]

/-- C4: after glob expansion and extension filtering, the invocation
terminates with non-zero exit status exactly when the filtered set is
empty (conversion) or has fewer than two entries (merge); otherwise
processing proceeds. -/
theorem exit_conditions (env : Env) (specIn : InputSpec) (outdir : String) (par : Bool)
    (order_input : String) (patterns : List String) (outfile : String) :
    (convert_pptx_to_pdf env specIn outdir par = .exitNoValidFiles ↔
      filter_valid ".pptx".data (resolveInput env.glob specIn) = [])
    ∧ (merge_pdfs env order_input patterns outfile = .exitInsufficientFiles ↔
      (filter_valid ".pdf".data (expandPatterns env.glob patterns)).length < 2) := by
  constructor
  · simp only [convert_pptx_to_pdf]
    by_cases h : filter_valid ".pptx".data (resolveInput env.glob specIn) = [] <;>
      simp [h]
  · simp only [merge_pdfs]
    by_cases h : (filter_valid ".pdf".data (expandPatterns env.glob patterns)).length < 2
    · simp [h]
    · simp only [if_neg h]
      by_cases hw : env.writeOk outfile <;> simp [hw, h]

/-- C3: in interactive merge-order selection, an empty response returns
the default (resolved) order, and a selection string that fails range
parsing returns the default order as a fallback; in neither case is the
merge aborted (whenever the resolved set was sufficient and the final
write succeeds, the merge still produces a merged output). -/
theorem interactive_merge_order_fallback (order_input : String) (valid_files : List String) :
    (pyStrip order_input.data = [] → interactive_merge_order order_input valid_files = valid_files)
    ∧ (∀ e, parse_range_core (pyStrip order_input.data) valid_files.length = .error e →
        interactive_merge_order order_input valid_files = valid_files)
    ∧ (∀ env patterns outfile, env.writeOk outfile = true →
        merge_pdfs env order_input patterns outfile ≠ .exitInsufficientFiles →
        ∃ appended, merge_pdfs env order_input patterns outfile = .merged appended) := by
  refine ⟨?_, ?_, ?_⟩
  · intro h
    unfold interactive_merge_order
    rw [h]
    simp
  · intro e he
    unfold interactive_merge_order
    by_cases h : pyStrip order_input.data = []
    · rw [h]
      simp
    · rw [if_neg h, he]
  · intro env patterns outfile hw hne
    simp only [merge_pdfs] at hne ⊢
    by_cases h2 : (filter_valid ".pdf".data (expandPatterns env.glob patterns)).length < 2
    · simp [h2] at hne
    · simp [h2, hw]

/-- Witness for C3: an empty response and the invalid selection `"abc"`
both return the two-file default order. -/
theorem interactive_merge_order_fallback_witness :
    interactive_merge_order "" ["a.pdf", "b.pdf"] = ["a.pdf", "b.pdf"] ∧
    interactive_merge_order "abc" ["a.pdf", "b.pdf"] = ["a.pdf", "b.pdf"] :=
  ⟨(interactive_merge_order_fallback "" ["a.pdf", "b.pdf"]).1 (by rfl),
   (interactive_merge_order_fallback "abc" ["a.pdf", "b.pdf"]).2.1
     (.invalidToken "abc".data) (by rfl)⟩

/-- C8: the merge-order selection string `"2,1"` over a resolved set of
exactly two files yields the two inputs swapped — the element-wise
selection `valid_files[idx]` for each parsed index. -/
theorem merge_order_swap (f1 f2 : String) :
    interactive_merge_order "2,1" [f1, f2] = [f2, f1] := by
  rfl

/-- C6: the merge loop checks each file of the final order for existence
immediately before appending and skips missing ones, so the appended
sequence is exactly the existing files of the ordered list, in order;
the merge itself still completes. -/
theorem merge_partial_on_missing (env : Env) (order_input : String) (patterns : List String)
    (outfile : String) (ordered : List String) :
    appendExisting env.fsExists ordered = ordered.filter env.fsExists
    ∧ (¬(filter_valid ".pdf".data (expandPatterns env.glob patterns)).length < 2 →
        env.writeOk outfile = true →
        merge_pdfs env order_input patterns outfile = .merged
          ((interactive_merge_order order_input
            (filter_valid ".pdf".data (expandPatterns env.glob patterns))).filter
              env.fsExists)) := by
  constructor
  · exact appendExisting_eq _ _
  · intro h2 hw
    simp only [merge_pdfs]
    rw [if_neg h2]
    simp [hw, appendExisting_eq]

/-- Witness for C6: merging `[a.pdf, b.pdf, missing.pdf]` where
`missing.pdf` does not exist still merges, appending only the two
existing files. -/
theorem merge_partial_on_missing_witness :
    appendExisting testEnv.fsExists ["a.pdf", "missing.pdf"] =
      (["a.pdf", "missing.pdf"] : List String).filter testEnv.fsExists ∧
    merge_pdfs testEnv "" ["a.pdf", "b.pdf", "missing.pdf"] "out.pdf" = .merged
      ((interactive_merge_order ""
        (filter_valid ".pdf".data
          (expandPatterns testEnv.glob ["a.pdf", "b.pdf", "missing.pdf"]))).filter
            testEnv.fsExists) :=
  ⟨(merge_partial_on_missing testEnv "" ["a.pdf", "b.pdf", "missing.pdf"] "out.pdf"
      ["a.pdf", "missing.pdf"]).1,
   (merge_partial_on_missing testEnv "" ["a.pdf", "b.pdf", "missing.pdf"] "out.pdf"
      ["a.pdf", "missing.pdf"]).2 (by decide) (by rfl)⟩

/-- C7: `convert_single` checks that the source file exists immediately
before invoking the external process and returns a null result (without
raising) when it is missing; a missing file that passed the extension
filter leaves the batch processing normally (`converted`), in contrast
with the fatal exit when no file matched the extension filter at all. -/
theorem convert_missing_recoverable (env : Env) (f outdir : String) (specIn : InputSpec)
    (par : Bool) :
    (env.fsExists f = false → convert_single env f outdir = none)
    ∧ (filter_valid ".pptx".data (resolveInput env.glob specIn) ≠ [] →
        convert_pptx_to_pdf env specIn outdir par =
          .converted ((filter_valid ".pptx".data (resolveInput env.glob specIn)).map
            (fun x => convert_single env x outdir)))
    ∧ (filter_valid ".pptx".data (resolveInput env.glob specIn) = [] →
        convert_pptx_to_pdf env specIn outdir par = .exitNoValidFiles) := by
  refine ⟨?_, ?_, ?_⟩
  · intro h
    unfold convert_single
    rw [h]
    simp
  · intro h
    simp only [convert_pptx_to_pdf]
    rw [if_neg h]
  · intro h
    simp only [convert_pptx_to_pdf]
    rw [if_pos h]

/-- Witness for C7: `missing.pptx` passes the extension filter but does
not exist — the batch result is `converted [none]`, not a fatal exit;
`x.txt` never matches the filter and the invocation exits. -/
theorem convert_missing_recoverable_witness :
    convert_single testEnv "missing.pptx" "out" = none ∧
    convert_pptx_to_pdf testEnv (.paths ["missing.pptx"]) "out" false = .converted [none] ∧
    convert_pptx_to_pdf testEnv (.paths ["x.txt"]) "out" false = .exitNoValidFiles :=
  ⟨(convert_missing_recoverable testEnv "missing.pptx" "out" (.paths []) false).1 (by rfl),
   (convert_missing_recoverable testEnv "missing.pptx" "out" (.paths ["missing.pptx"])
      false).2.1 (by decide),
   (convert_missing_recoverable testEnv "missing.pptx" "out" (.paths ["x.txt"])
      false).2.2 (by decide)⟩

/-- C9: for every batch of resolved files, parallel conversion — the
same jobs finishing in whatever completion order the worker pool
produces — yields exactly the same multiset of per-file outcomes as
sequential conversion, each job being a function of its own input file
and the output directory only. -/
theorem parallel_matches_sequential (env : Env) (outdir : String)
    (valid_files completionOrder : List String)
    (hperm : completionOrder.Perm valid_files) :
    (runJobs env completionOrder outdir).Perm (runJobs env valid_files outdir)
    ∧ ∀ p ∈ runJobs env completionOrder outdir,
        p.2 = convert_single env p.1 outdir := by
  constructor
  · exact hperm.map _
  · intro p hp
    obtain ⟨f, hf, rfl⟩ := List.mem_map.mp hp
    rfl

/-- Witness for C9: a two-file batch completing in reversed order. -/
theorem parallel_matches_sequential_witness :
    (runJobs testEnv ["b.pptx", "a.pptx"] "out").Perm
      (runJobs testEnv ["a.pptx", "b.pptx"] "out")
    ∧ ∀ p ∈ runJobs testEnv ["b.pptx", "a.pptx"] "out",
        p.2 = convert_single testEnv p.1 "out" :=
  parallel_matches_sequential testEnv "out" ["a.pptx", "b.pptx"] ["b.pptx", "a.pptx"]
    (List.Perm.swap _ _ _)

